import Mathlib

/-!
Verification of the resilient Redis client facade (`src/redis_client.py`,
`src/config.py`) of the fastapi-redis-project repository.

The development shallowly embeds, from the source:
  * the value codec `RedisClient._serialize` / `RedisClient._deserialize`
    (Python primitives plus orjson-encoded composites),
  * the retry decorator `RedisClient._async_retry_decorator` built on
    `backoff.on_exception(backoff.expo, (aredis.RedisError, ConnectionError), ...)`,
  * the topology selection `RedisClient._init_client`,
  * the per-operation bodies of `async_set`, `async_get`, `async_llen`,
    `async_incr` and friends, `async_hscan`, `async_blpop`, `async_brpop`,
    `async_brpoplpush`, as functions of the underlying driver outcome.

Python values are modelled by `PyVal`; the external `orjson` library is
modelled by an executable JSON renderer (`orjsonDumps`) and strict parser
(`orjsonLoads`), restricted to the value domain used by this repository
(floats are outside the embedding).
-/

namespace RedisSpec

/-- A Python value as handled by the client's codec: `None`, `bool`, `int`,
`str`, `list`, `dict` (string keys, as orjson requires by default), plus
`obj`, an arbitrary non-JSON-serializable Python object (e.g. a `set`),
for which `orjson.dumps` raises. Floats are outside the embedding. -/
inductive PyVal where
  | none : PyVal
  | bool : Bool → PyVal
  | int : Int → PyVal
  | str : String → PyVal
  | list : List PyVal → PyVal
  | dict : List (String × PyVal) → PyVal
  | obj : PyVal

mutual
/-- Structural equality test on `PyVal` (the nested inductive rules out a
derived instance). -/
def pvBeq : PyVal → PyVal → Bool
  | .none, .none => true
  | .bool a, .bool b => a == b
  | .int a, .int b => a == b
  | .str a, .str b => a == b
  | .list xs, .list ys => pvBeqList xs ys
  | .dict xs, .dict ys => pvBeqPairs xs ys
  | .obj, .obj => true
  | _, _ => false

def pvBeqList : List PyVal → List PyVal → Bool
  | [], [] => true
  | x :: xs, y :: ys => pvBeq x y && pvBeqList xs ys
  | _, _ => false

def pvBeqPairs : List (String × PyVal) → List (String × PyVal) → Bool
  | [], [] => true
  | (k, v) :: xs, (k2, v2) :: ys => k == k2 && pvBeq v v2 && pvBeqPairs xs ys
  | _, _ => false
end

mutual
/-- `pvBeq` decides equality (proof-valued `def` so the decidability instance
below can be set up among the definitions). -/
def pvBeq_iff : ∀ a b : PyVal, pvBeq a b = true ↔ a = b
  | .none, b => by cases b <;> simp [pvBeq]
  | .bool x, b => by cases b <;> simp [pvBeq]
  | .int x, b => by cases b <;> simp [pvBeq]
  | .str x, b => by cases b <;> simp [pvBeq]
  | .obj, b => by cases b <;> simp [pvBeq]
  | .list xs, b => by
    cases b
    case list ys => simpa [pvBeq] using pvBeqList_iff xs ys
    all_goals simp [pvBeq]
  | .dict xs, b => by
    cases b
    case dict ys => simpa [pvBeq] using pvBeqPairs_iff xs ys
    all_goals simp [pvBeq]

def pvBeqList_iff : ∀ xs ys : List PyVal, pvBeqList xs ys = true ↔ xs = ys
  | [], ys => by cases ys <;> simp [pvBeqList]
  | x :: xs, ys => by
    cases ys with
    | nil => simp [pvBeqList]
    | cons y ys =>
      simp [pvBeqList, Bool.and_eq_true, pvBeq_iff x y, pvBeqList_iff xs ys]

def pvBeqPairs_iff :
    ∀ xs ys : List (String × PyVal), pvBeqPairs xs ys = true ↔ xs = ys
  | [], ys => by cases ys <;> simp [pvBeqPairs]
  | (k, v) :: xs, ys => by
    cases ys with
    | nil => simp [pvBeqPairs]
    | cons y ys =>
      obtain ⟨k2, v2⟩ := y
      simp [pvBeqPairs, Bool.and_eq_true, pvBeq_iff v v2, pvBeqPairs_iff xs ys,
        Prod.ext_iff]
end

instance : DecidableEq PyVal := fun a b => decidable_of_iff _ (pvBeq_iff a b)

/-- The decimal digit character for `d < 10`. -/
def digitChar (d : Nat) : Char := Char.ofNat (48 + d)

/-- Decimal digit characters of `n`, most significant first, computed with
structural fuel so the kernel can evaluate it; `fuel > n` suffices. -/
def natDigitsAux : Nat → Nat → List Char
  | 0, _ => []
  | fuel + 1, n =>
    if n < 10 then [digitChar n]
    else natDigitsAux fuel (n / 10) ++ [digitChar (n % 10)]

/-- Decimal digit characters of `n`, most significant first (Python `str(n)`
for a non-negative `n`). -/
def natDigits (n : Nat) : List Char := natDigitsAux (n + 1) n

/-- Python `str(n)` for an integer `n`: a minus sign when negative, then the
decimal digits of the absolute value. -/
def intChars (n : Int) : List Char :=
  if n < 0 then '-' :: natDigits n.natAbs else natDigits n.natAbs

/-- The lower-case hexadecimal digit character for `d < 16`. -/
def hexChar (d : Nat) : Char :=
  if d < 10 then Char.ofNat (48 + d) else Char.ofNat (87 + d)

/-- JSON escaping of one character, as emitted by orjson: the two mandatory
escapes, short escapes for the common control characters, `\u00XX` for the
remaining control characters, and everything else unescaped. -/
def escChar (c : Char) : List Char :=
  if c = '"' then ['\\', '"']
  else if c = '\\' then ['\\', '\\']
  else if c = '\n' then ['\\', 'n']
  else if c = '\t' then ['\\', 't']
  else if c = '\r' then ['\\', 'r']
  else if c.toNat = 8 then ['\\', 'b']
  else if c.toNat = 12 then ['\\', 'f']
  else if c.toNat < 32 then
    ['\\', 'u', '0', '0', hexChar (c.toNat / 16), hexChar (c.toNat % 16)]
  else [c]

/-- JSON escaping of a character sequence (string body, without the quotes). -/
def escBody : List Char → List Char
  | [] => []
  | c :: cs => escChar c ++ escBody cs

/-- A JSON string literal: quote, escaped body, quote. -/
def strLit (s : String) : List Char := '"' :: (escBody s.data ++ ['"'])

mutual
/-- The character output of `orjson.dumps` on a `PyVal`, or `none` when the
real library raises: on a value that is not JSON-serializable (contains
`PyVal.obj`), or on an integer outside orjson's 64-bit range
`[-2^63, 2^64 - 1]` (i64 or u64), where `orjson.dumps` raises `TypeError`. -/
def orjsonDumps : PyVal → Option (List Char)
  | .none => some ['n', 'u', 'l', 'l']
  | .bool true => some ['t', 'r', 'u', 'e']
  | .bool false => some ['f', 'a', 'l', 's', 'e']
  | .int n =>
    if -(2 ^ 63) ≤ n ∧ n < 2 ^ 64 then some (intChars n) else Option.none
  | .str s => some (strLit s)
  | .list xs =>
    match dumpsElems xs with
    | some body => some ('[' :: (body ++ [']']))
    | none => Option.none
  | .dict kvs =>
    match dumpsPairs kvs with
    | some body => some ('\x7b' :: (body ++ ['\x7d']))
    | none => Option.none
  | .obj => Option.none

/-- Comma-separated renderings of the elements of a Python list. -/
def dumpsElems : List PyVal → Option (List Char)
  | [] => some []
  | x :: xs =>
    match orjsonDumps x with
    | some dx =>
      match xs with
      | [] => some dx
      | _ :: _ =>
        match dumpsElems xs with
        | some rest => some (dx ++ ',' :: rest)
        | none => Option.none
    | none => Option.none

/-- Comma-separated renderings of the key/value pairs of a Python dict. -/
def dumpsPairs : List (String × PyVal) → Option (List Char)
  | [] => some []
  | (k, v) :: kvs =>
    match orjsonDumps v with
    | some dv =>
      match kvs with
      | [] => some (strLit k ++ ':' :: dv)
      | _ :: _ =>
        match dumpsPairs kvs with
        | some rest => some (strLit k ++ ':' :: dv ++ ',' :: rest)
        | none => Option.none
    | none => Option.none
end

/-! ### A strict JSON parser, modelling `orjson.loads`

The parser is total via a structural fuel argument; `orjsonLoads` supplies
fuel larger than the input length, which the round-trip proofs show is
sufficient for any rendered value.  It accepts exactly the JSON grammar over
the embedded value domain (floats excepted) and rejects everything else, in
particular Python literal forms such as `True` or `None`. -/

/-- The numeric value of a lower/upper-case hexadecimal digit character. -/
def hexVal (c : Char) : Option Nat :=
  if 48 ≤ c.toNat ∧ c.toNat ≤ 57 then some (c.toNat - 48)
  else if 97 ≤ c.toNat ∧ c.toNat ≤ 102 then some (c.toNat - 87)
  else if 65 ≤ c.toNat ∧ c.toNat ≤ 70 then some (c.toNat - 55)
  else Option.none

/-- The character denoted by a single-character JSON escape. -/
def unescChar (e : Char) : Option Char :=
  if e = '"' ∨ e = '\\' ∨ e = '/' then some e
  else if e = 'n' then some '\n'
  else if e = 't' then some '\t'
  else if e = 'r' then some '\r'
  else if e = 'b' then some (Char.ofNat 8)
  else if e = 'f' then some (Char.ofNat 12)
  else Option.none

/-- Parse the body of a JSON string literal (after the opening quote),
returning the unescaped characters and the input after the closing quote. -/
def parseStrBody : List Char → Option (List Char × List Char)
  | [] => Option.none
  | c :: rest =>
    if c = '"' then some ([], rest)
    else if c = '\\' then
      match rest with
      | [] => Option.none
      | e :: rest2 =>
        if e = 'u' then
          match rest2 with
          | h1 :: h2 :: h3 :: h4 :: rest3 =>
            match hexVal h1, hexVal h2, hexVal h3, hexVal h4 with
            | some a, some b, some x, some y =>
              let code := ((a * 16 + b) * 16 + x) * 16 + y
              if code < 55296 then
                match parseStrBody rest3 with
                | some (s, r) => some (Char.ofNat code :: s, r)
                | Option.none => Option.none
              else Option.none
            | _, _, _, _ => Option.none
          | _ => Option.none
        else
          match unescChar e with
          | some c2 =>
            match parseStrBody rest2 with
            | some (s, r) => some (c2 :: s, r)
            | Option.none => Option.none
          | Option.none => Option.none
    else
      match parseStrBody rest with
      | some (s, r) => some (c :: s, r)
      | Option.none => Option.none

/-- True when the input cannot extend a decimal digit run: empty, or headed
by a non-digit.  Every JSON delimiter and the end of input qualify. -/
def noDigitHead : List Char → Bool
  | [] => true
  | c :: _ => !c.isDigit

/-- Split a leading run of decimal digit characters off the input. -/
def takeDigits : List Char → List Char × List Char
  | [] => ([], [])
  | c :: rest =>
    if c.isDigit then
      let (ds, r) := takeDigits rest
      (c :: ds, r)
    else ([], c :: rest)

/-- The natural number denoted by a digit run, most significant first. -/
def digitsToNat (ds : List Char) : Nat :=
  ds.foldl (fun acc c => acc * 10 + (c.toNat - 48)) 0

/-- Parse an unsigned digit run into an integer of the given sign, rejecting
leading zeros as JSON does, and rejecting magnitudes outside orjson's
64-bit load range: `orjson.loads` parses a negative integer as i64 and a
non-negative one as u64, raising `JSONDecodeError` beyond `-2^63` and
`2^64 - 1` respectively. -/
def parseNumCore (neg : Bool) (cs : List Char) : Option (PyVal × List Char) :=
  match takeDigits cs with
  | ([], _) => Option.none
  | (d :: ds, rest) =>
    if d = '0' ∧ ds ≠ [] then Option.none
    else
      let m := digitsToNat (d :: ds)
      if neg then
        if m ≤ 2 ^ 63 then some (.int (-(m : Int)), rest) else Option.none
      else
        if m < 2 ^ 64 then some (.int ((m : Int)), rest) else Option.none

/-- Parse a JSON integer (optional sign, digit run, no leading zeros).  A
fractional or exponent continuation is left in the remainder, making the
whole parse fail later: floats are deliberately outside the embedding. -/
def parseNumber (cs : List Char) : Option (PyVal × List Char) :=
  match cs with
  | [] => Option.none
  | c :: r => if c = '-' then parseNumCore true r else parseNumCore false (c :: r)

mutual
/-- Parse one JSON value; strict (no whitespace), structural on `fuel`. -/
def parseVal : Nat → List Char → Option (PyVal × List Char)
  | 0, _ => Option.none
  | fuel + 1, cs =>
    match cs with
    | [] => Option.none
    | c :: rest =>
      if c = 'n' then
        match rest with
        | 'u' :: 'l' :: 'l' :: r => some (.none, r)
        | _ => Option.none
      else if c = 't' then
        match rest with
        | 'r' :: 'u' :: 'e' :: r => some (.bool true, r)
        | _ => Option.none
      else if c = 'f' then
        match rest with
        | 'a' :: 'l' :: 's' :: 'e' :: r => some (.bool false, r)
        | _ => Option.none
      else if c = '"' then
        match parseStrBody rest with
        | some (s, r) => some (.str (String.mk s), r)
        | Option.none => Option.none
      else if c = '[' then
        match rest with
        | [] => Option.none
        | c2 :: r2 =>
          if c2 = ']' then some (.list [], r2)
          else
            match parseElems fuel (c2 :: r2) with
            | some (vs, r) => some (.list vs, r)
            | Option.none => Option.none
      else if c = '\x7b' then
        match rest with
        | [] => Option.none
        | c2 :: r2 =>
          if c2 = '\x7d' then some (.dict [], r2)
          else
            match parsePairs fuel (c2 :: r2) with
            | some (ps, r) => some (.dict ps, r)
            | Option.none => Option.none
      else if c = '-' ∨ c.isDigit then parseNumber (c :: rest)
      else Option.none

/-- Parse one or more comma-separated values up to the closing bracket. -/
def parseElems : Nat → List Char → Option (List PyVal × List Char)
  | 0, _ => Option.none
  | fuel + 1, cs =>
    match parseVal fuel cs with
    | some (v, r) =>
      match r with
      | ',' :: r2 =>
        match parseElems fuel r2 with
        | some (vs, r3) => some (v :: vs, r3)
        | Option.none => Option.none
      | ']' :: r2 => some ([v], r2)
      | _ => Option.none
    | Option.none => Option.none

/-- Parse one or more comma-separated string-keyed pairs up to the brace. -/
def parsePairs : Nat → List Char → Option (List (String × PyVal) × List Char)
  | 0, _ => Option.none
  | fuel + 1, cs =>
    match cs with
    | '"' :: rest =>
      match parseStrBody rest with
      | some (k, r1) =>
        match r1 with
        | ':' :: r2 =>
          match parseVal fuel r2 with
          | some (v, r3) =>
            match r3 with
            | ',' :: r4 =>
              match parsePairs fuel r4 with
              | some (ps, r5) => some ((String.mk k, v) :: ps, r5)
              | Option.none => Option.none
            | '\x7d' :: r4 => some ([(String.mk k, v)], r4)
            | _ => Option.none
          | Option.none => Option.none
        | _ => Option.none
      | Option.none => Option.none
    | _ => Option.none
end

/-- `orjson.loads` on a text input: parse one JSON document spanning the whole
input, or fail (the real library raises `JSONDecodeError`).  The model is
conservative about the library's domain: it does not parse floats,
whitespace-padded documents, or whitespace inside composites.  Every result
below invokes it either on renderer output (whitespace-free, float-free,
with integers inside orjson's 64-bit bounds), where the round-trip theorems
apply, or on input satisfying `jsonHeadStuck`, where the real parser
provably fails as well — never on the dropped cases. -/
def orjsonLoads (s : String) : Option PyVal :=
  match parseVal (s.data.length + 1) s.data with
  | some (v, []) => some v
  | _ => Option.none

/-- JSON whitespace, as skipped by `orjson.loads` around tokens. -/
def jsonWs (c : Char) : Bool :=
  c == ' ' || c == '\t' || c == '\n' || c == '\r'

/-- Drop leading JSON whitespace. -/
def skipJsonWs : List Char → List Char
  | [] => []
  | c :: cs => if jsonWs c then skipJsonWs cs else c :: cs

/-- The characters that can begin a JSON document (`null`, `true`, `false`,
a string, an array, an object, or a number). -/
def jsonStarter (c : Char) : Bool :=
  c == 'n' || c == 't' || c == 'f' || c == '"' || c == '[' || c == '\x7b' ||
    c == '-' || c.isDigit

/-- Whether a run over the list form already lacks any possible JSON start. -/
def headNoStarter : List Char → Bool
  | [] => true
  | c :: _ => !jsonStarter c

/-- A sound syntactic witness that `orjson.loads` raises on `s`: after
skipping leading whitespace the input is exhausted, or its first character
cannot begin any JSON document.  The real parser necessarily fails on such
input whatever follows, and so does the model (`orjsonLoads_stuck` below);
the C1 results invoke parse *failure* only through this condition, so they
never rely on the model's conservative scope (no floats, no interior
whitespace). -/
def jsonHeadStuck (s : String) : Bool :=
  headNoStarter (skipJsonWs s.data)

/-! ### The codec: `RedisClient._serialize` / `RedisClient._deserialize` -/

/-- `RedisClient._serialize`: `None` becomes the empty string; `str`, `int`,
`bool` (Python primitives) become their `str()` form; everything else goes
through `orjson.dumps`, whose failure the method re-raises (`.error`). -/
def serialize : PyVal → Except Unit String
  | .none => .ok ""
  | .str s => .ok s
  | .int n => .ok (String.mk (intChars n))
  | .bool b => .ok (if b then "True" else "False")
  | v =>
    match orjsonDumps v with
    | some cs => .ok (String.mk cs)
    | Option.none => .error ()

/-- The wire input handed to `RedisClient._deserialize`: Python `None`, a text
string, or a UTF-8 `bytes` object (represented by its decoded text; the
method decodes it before parsing, and `bytes == ""` is `False` in Python
even for `b""`). -/
inductive Wire where
  | pynone : Wire
  | pystr : String → Wire
  | pybytes : String → Wire
deriving DecidableEq

/-- The text-level tail of `_deserialize`: try `orjson.loads`, and on a parse
failure return the raw text unchanged. -/
def deserializeStr (s : String) : PyVal :=
  match orjsonLoads s with
  | some v => v
  | Option.none => .str s

/-- `RedisClient._deserialize`: `None` or the empty *text* string give `None`;
a `bytes` input is never equal to `""`, so it skips that check, is decoded,
and takes the parse-or-raw path. -/
def deserialize : Wire → PyVal
  | .pynone => .none
  | .pystr s => if s = "" then .none else deserializeStr s
  | .pybytes s => deserializeStr s

/-- A driver reply that is either absent (Python `None`) or a text string, as
fed to `_deserialize` by the read operations. -/
def deserializeOpt : Option String → PyVal
  | Option.none => .none
  | some s => deserialize (.pystr s)

/-! ### Configuration (`src/config.py`, `RedisSettings`) and topology
(`RedisClient._init_client`) -/

/-- The `RedisSettings` configuration model, with the defaults of
`src/config.py` in `defaultRedisSettings`. -/
structure RedisSettings where
  host : String
  port : Nat
  password : String
  db : Nat
  decode_responses : Bool
  max_connections : Nat
  socket_timeout : Option Rat
  retry_on_timeout : Bool
  retry_attempts : Nat
  retry_delay : Rat
  is_cluster : Bool
  cluster_nodes : Option (List String)
deriving DecidableEq

def defaultRedisSettings : RedisSettings :=
  ⟨"115.190.18.222", 6379, "12345678", 0, true, 10, some 5, true, 3, 1/10,
    false, Option.none⟩

/-- Python truthiness of the `cluster_nodes` field (`Optional[list]`): `None`
and the empty list are falsy. -/
def pyTruthy : Option (List String) → Bool
  | Option.none => false
  | some l => !l.isEmpty

/-- The two client shapes `_init_client` can build. -/
inductive RedisMode where
  | standalone : RedisMode
  | cluster : RedisMode
deriving DecidableEq

/-- `RedisClient._init_client`: cluster clients iff
`settings.redis.is_cluster and settings.redis.cluster_nodes` is truthy. -/
def selectMode (s : RedisSettings) : RedisMode :=
  if s.is_cluster ∧ pyTruthy s.cluster_nodes then .cluster else .standalone

/-! ### Exceptions and the retry decorator
(`RedisClient._async_retry_decorator`) -/

/-- The message classes of `aredis.ResponseError` that `async_set`
distinguishes by substring. -/
inductive RespKind where
  | readonly : RespKind
  | invalidExpire : RespKind
  | wrongType : RespKind
  | other : RespKind
deriving DecidableEq

/-- The exception classes visible to the embedding: the built-in
`ConnectionError`; `aredis.RedisError` (covering its transient subclasses
such as `TimeoutError`); `aredis.ResponseError`, a *subclass* of
`RedisError` carrying a command-level rejection; and a plain `Exception`
raised by wrapper code (e.g. `async_set`'s re-raise branches), which is
none of the above. -/
inductive PyExc where
  | connErr : PyExc
  | redisErr : PyExc
  | respErr : RespKind → PyExc
  | appExc : PyExc
deriving DecidableEq

/-- Membership in the decorator's exception tuple
`(aredis.RedisError, ConnectionError)`: `isinstance` is true for every
`RedisError` subclass, hence also for `ResponseError`. -/
def isRetryableExc : PyExc → Bool
  | .connErr => true
  | .redisErr => true
  | .respErr _ => true
  | .appExc => false

/-- The retry loop of `backoff.on_exception`, on a script `outcome` giving
each attempt's result.  `i` is the next attempt index, the second argument
the remaining tries; returns the surfaced result and the number of calls
made.  An exception outside the tuple propagates at once; one inside is
retried while tries remain. -/
def retryAux (outcome : Nat → Except PyExc α) : Nat → Nat → Except PyExc α × Nat
  | _, 0 => (.error .appExc, 0)
  | i, 1 => (outcome i, 1)
  | i, t + 2 =>
    match outcome i with
    | .ok a => (.ok a, 1)
    | .error e =>
      if isRetryableExc e then
        let r := retryAux outcome (i + 1) (t + 1)
        (r.1, r.2 + 1)
      else (.error e, 1)

/-- A decorated call under `max_tries = maxTries` (the code passes
`settings.redis.retry_attempts`, ≥ 1 in every configuration). -/
def retryRun (maxTries : Nat) (outcome : Nat → Except PyExc α) :
    Except PyExc α × Nat :=
  retryAux outcome 0 maxTries

/-- `backoff.expo` with `base=2` and `factor=retry_delay`: the computed delay
before the `k`-th retry (0-based) is `factor * 2 ^ k`. -/
def expoDelay (factor : Rat) (k : Nat) : Rat := factor * 2 ^ k

/-- `backoff.full_jitter` draws `random.uniform(0, value)`: the sample at
uniform position `u ∈ [0, 1]` is `u * value`. -/
def fullJitter (value u : Rat) : Rat := u * value

/-! ### Facade operation bodies, as functions of the driver outcome

Each `async_*` body is a `try/except` around one driver call; the models take
that call's outcome (`Except PyExc _`) as an argument and reproduce the
body's handling of it. -/

/-- The argument record of the driver call `self.async_.set(...)`. -/
structure SetCall where
  key : String
  value : String
  ex : Option Int
  nx : Bool
  xx : Bool
  keepttl : Bool
deriving DecidableEq

/-- `RedisClient.async_set` (expire given in whole seconds, covering both the
`int` and the `timedelta` form): serialization failure is swallowed by the
final `except Exception` (returns `False`, no driver call); a non-positive
expire is logged and dropped (`ex = None`) before the driver call; a
`ResponseError` mentioning READONLY or an invalid expire time is re-raised
as a plain `Exception`; any other failure returns `False`.  The second
component reports the driver call made, if any. -/
def async_set (key : String) (value : PyVal) (expire : Option Int)
    (nx xx keepttl : Bool) (driver : SetCall → Except PyExc Bool) :
    Except PyExc Bool × Option SetCall :=
  match serialize value with
  | .error _ => (.ok false, Option.none)
  | .ok sv =>
    let ex : Option Int := match expire with
      | Option.none => Option.none
      | some e => if e ≤ 0 then Option.none else some e
    let call : SetCall := ⟨key, sv, ex, nx, xx, keepttl⟩
    match driver call with
    | .ok b => (.ok b, some call)
    | .error (.respErr .readonly) => (.error .appExc, some call)
    | .error (.respErr .invalidExpire) => (.error .appExc, some call)
    | .error (.respErr _) => (.ok false, some call)
    | .error _ => (.ok false, some call)

/-- `RedisClient.async_get`: deserializes the reply; any failure is swallowed
and `None` returned. -/
def async_get (driver : Except PyExc (Option String)) : Except PyExc PyVal :=
  match driver with
  | .ok v => .ok (deserializeOpt v)
  | .error _ => .ok .none

/-- `RedisClient.async_llen`: any failure is swallowed and `0` returned. -/
def async_llen (driver : Except PyExc Nat) : Except PyExc Nat :=
  match driver with
  | .ok n => .ok n
  | .error _ => .ok 0

/-- `RedisClient.async_incr`: a failure is logged and re-raised. -/
def async_incr (driver : Except PyExc Int) : Except PyExc Int :=
  match driver with
  | .ok n => .ok n
  | .error e => .error e

/-- `RedisClient.async_decr`: a failure is logged and re-raised. -/
def async_decr (driver : Except PyExc Int) : Except PyExc Int :=
  match driver with
  | .ok n => .ok n
  | .error e => .error e

/-- `RedisClient.async_incrby`: a failure is logged and re-raised. -/
def async_incrby (driver : Except PyExc Int) : Except PyExc Int :=
  match driver with
  | .ok n => .ok n
  | .error e => .error e

/-- `RedisClient.async_decrby`: a failure is logged and re-raised. -/
def async_decrby (driver : Except PyExc Int) : Except PyExc Int :=
  match driver with
  | .ok n => .ok n
  | .error e => .error e

/-- `RedisClient.async_hincrby`: a failure is logged and re-raised. -/
def async_hincrby (driver : Except PyExc Int) : Except PyExc Int :=
  match driver with
  | .ok n => .ok n
  | .error e => .error e

/-- `RedisClient.async_hscan`: on success, decodes keys (identity here, with
`decode_responses=True`) and deserializes values; on any failure returns
the pair `(0, empty dict)`. -/
def async_hscan (driver : Except PyExc (Nat × List (String × String))) :
    Nat × List (String × PyVal) :=
  match driver with
  | .ok (c, kvs) => (c, kvs.map (fun p => (p.1, deserialize (.pystr p.2))))
  | .error _ => (0, [])

/-- `RedisClient.async_blpop`: returns the driver result (the
`[list name, element]` pair) unchanged; a failure returns `None`. -/
def async_blpop (driver : Except PyExc (Option (String × String))) :
    Option (String × String) :=
  match driver with
  | .ok r => r
  | .error _ => Option.none

/-- `RedisClient.async_brpop`: same shape as `async_blpop`. -/
def async_brpop (driver : Except PyExc (Option (String × String))) :
    Option (String × String) :=
  match driver with
  | .ok r => r
  | .error _ => Option.none

/-- `RedisClient.async_brpoplpush`: applies `_deserialize` to the result (a
timeout gives `None`, deserialized to `None`); a failure returns `None`. -/
def async_brpoplpush (driver : Except PyExc (Option String)) : PyVal :=
  match driver with
  | .ok r => deserializeOpt r
  | .error _ => .none

/-- The public `async_*` surface of `RedisClient`, with a flag recording
whether the method carries the `@_async_retry_decorator` decoration in the
source.  Transcribed method by method from `src/redis_client.py`. -/
def facadeOps : List (String × Bool) :=
  [("async_ping", true), ("async_set", true), ("async_get", true),
   ("async_delete", true), ("async_exists", true), ("async_expire", true),
   ("async_ttl", true), ("async_incr", true), ("async_decr", true),
   ("async_incrby", true), ("async_decrby", true), ("async_strlen", true),
   ("async_getrange", true), ("async_setrange", true), ("async_hset", true),
   ("async_hget", true), ("async_hgetall", true), ("async_hdel", true),
   ("async_hexists", true), ("async_hlen", true), ("async_hkeys", true),
   ("async_hvals", true), ("async_hincrby", true), ("async_hmget", true),
   ("async_hsetnx", true), ("async_hscan", true), ("async_lpush", true),
   ("async_rpush", true), ("async_lpop", true), ("async_rpop", true),
   ("async_llen", true), ("async_lindex", true), ("async_lset", true),
   ("async_lrange", true), ("async_linsert", true), ("async_lrem", true),
   ("async_ltrim", true), ("async_blpop", true), ("async_brpop", true),
   ("async_brpoplpush", true), ("async_sadd", true), ("async_srem", true),
   ("async_smembers", true), ("async_sismember", true), ("async_zadd", true),
   ("async_zrange", true), ("async_zrem", true), ("async_multi_exec", true),
   ("async_execute", true), ("async_pipeline", false), ("async_close", false)]

/-! ### Decimal rendering and parsing invert each other -/

theorem natDigitsAux_congr : ∀ f1 n f2, n < f1 → n < f2 →
    natDigitsAux f1 n = natDigitsAux f2 n
  | 0, _, _, h1, _ => absurd h1 (by omega)
  | _ + 1, _, 0, _, h2 => absurd h2 (by omega)
  | f1 + 1, n, f2 + 1, h1, h2 => by
    simp only [natDigitsAux]
    by_cases h : n < 10
    · simp [h]
    · simp only [if_neg h]
      rw [natDigitsAux_congr f1 (n / 10) f2 (by omega) (by omega)]

theorem natDigits_lt (n : Nat) (h : n < 10) : natDigits n = [digitChar n] := by
  simp [natDigits, natDigitsAux, h]

theorem natDigits_ge (n : Nat) (h : 10 ≤ n) :
    natDigits n = natDigits (n / 10) ++ [digitChar (n % 10)] := by
  have hlt : n / 10 < n := by omega
  show natDigitsAux (n + 1) n = natDigitsAux (n / 10 + 1) (n / 10) ++ [digitChar (n % 10)]
  rw [show natDigitsAux (n + 1) n
      = if n < 10 then [digitChar n]
        else natDigitsAux n (n / 10) ++ [digitChar (n % 10)] from rfl]
  rw [if_neg (by omega), natDigitsAux_congr n (n / 10) (n / 10 + 1) (by omega) (by omega)]

theorem digitChar_toNat (d : Nat) (h : d < 10) : (digitChar d).toNat = 48 + d := by
  interval_cases d <;> rfl

theorem digitChar_isDigit (d : Nat) (h : d < 10) : (digitChar d).isDigit = true := by
  interval_cases d <;> rfl

theorem isDigit_toNat {c : Char} (h : c.isDigit = true) :
    48 ≤ c.toNat ∧ c.toNat ≤ 57 := by
  simp only [Char.isDigit, decide_eq_true_eq, Bool.and_eq_true] at h
  exact h

theorem digit_ne {c : Char} (h : c.isDigit = true) :
    c ≠ '-' ∧ c ≠ 'n' ∧ c ≠ 't' ∧ c ≠ 'f' ∧ c ≠ '"' ∧ c ≠ '[' ∧
      c ≠ '\x7b' ∧ c ≠ ']' ∧ c ≠ '\x7d' ∧ c ≠ ',' ∧ c ≠ ':' := by
  refine ⟨?_, ?_, ?_, ?_, ?_, ?_, ?_, ?_, ?_, ?_, ?_⟩ <;>
    (intro hc; subst hc; exact absurd h (by decide))

theorem natDigits_ne_nil (n : Nat) : natDigits n ≠ [] := by
  by_cases h : n < 10
  · simp [natDigits_lt n h]
  · simp [natDigits_ge n (by omega)]

theorem natDigits_digits (n : Nat) : ∀ c ∈ natDigits n, c.isDigit = true := by
  induction n using Nat.strongRecOn with
  | ind n ih =>
    rcases Nat.lt_or_ge n 10 with h | h
    · rw [natDigits_lt n h]
      intro c hc
      rw [List.mem_singleton] at hc
      subst hc
      exact digitChar_isDigit n h
    · rw [natDigits_ge n (by omega)]
      intro c hc
      rw [List.mem_append] at hc
      rcases hc with hc | hc
      · exact ih (n / 10) (by omega) c hc
      · rw [List.mem_singleton] at hc
        subst hc
        exact digitChar_isDigit _ (Nat.mod_lt _ (by omega))

theorem digitsToNat_natDigits (n : Nat) : digitsToNat (natDigits n) = n := by
  induction n using Nat.strongRecOn with
  | ind n ih =>
    rcases Nat.lt_or_ge n 10 with h | h
    · rw [natDigits_lt n h]
      simp [digitsToNat, digitChar_toNat n h]
    · rw [natDigits_ge n (by omega)]
      simp only [digitsToNat, List.foldl_append, List.foldl_cons, List.foldl_nil]
      have h1 := ih (n / 10) (by omega)
      rw [digitsToNat] at h1
      rw [h1, digitChar_toNat _ (Nat.mod_lt _ (by omega))]
      omega

theorem natDigits_head_zero (n : Nat) :
    ∀ d ds, natDigits n = d :: ds → d = '0' → n = 0 := by
  induction n using Nat.strongRecOn with
  | ind n ih =>
    intro d ds heq hz
    rcases Nat.lt_or_ge n 10 with h | h
    · rw [natDigits_lt n h] at heq
      injection heq with h1 h2
      subst hz
      have ht := digitChar_toNat n h
      rw [h1] at ht
      have h0 : ('0' : Char).toNat = 48 := by decide
      omega
    · rw [natDigits_ge n (by omega)] at heq
      obtain ⟨d2, ds2, hcons⟩ :
          ∃ d2 ds2, natDigits (n / 10) = d2 :: ds2 := by
        cases hh : natDigits (n / 10) with
        | nil => exact absurd hh (natDigits_ne_nil _)
        | cons a b => exact ⟨a, b, rfl⟩
      rw [hcons] at heq
      simp only [List.cons_append, List.cons.injEq] at heq
      obtain ⟨hd2, -⟩ := heq
      have h0 := ih (n / 10) (by omega) d2 ds2 hcons
        (hd2.trans hz)
      omega

theorem takeDigits_of_noDigit {cs : List Char} (h : noDigitHead cs = true) :
    takeDigits cs = ([], cs) := by
  cases cs with
  | nil => rfl
  | cons c t =>
    simp only [noDigitHead, Bool.not_eq_true'] at h
    simp [takeDigits, h]

theorem takeDigits_run : ∀ ds : List Char, (∀ c ∈ ds, c.isDigit = true) →
    ∀ rest, noDigitHead rest = true → takeDigits (ds ++ rest) = (ds, rest)
  | [], _, rest, hr => by simpa using takeDigits_of_noDigit hr
  | c :: ds, hds, rest, hr => by
    have hc : c.isDigit = true := hds c (by simp)
    have ht := takeDigits_run ds (fun x hx => hds x (by simp [hx])) rest hr
    simp [takeDigits, hc, ht]

theorem parseNumCore_reduce (m : Nat) (neg : Bool) (rest : List Char)
    (hr : noDigitHead rest = true) :
    parseNumCore neg (natDigits m ++ rest) =
      (if neg then
        (if m ≤ 2 ^ 63 then some (.int (-(m : Int)), rest) else Option.none)
       else
        (if m < 2 ^ 64 then some (.int ((m : Int)), rest) else Option.none)) := by
  obtain ⟨d, ds, hcons⟩ : ∃ d ds, natDigits m = d :: ds := by
    cases hh : natDigits m with
    | nil => exact absurd hh (natDigits_ne_nil _)
    | cons a b => exact ⟨a, b, rfl⟩
  have hrun := takeDigits_run (natDigits m) (natDigits_digits m) rest hr
  rw [hcons, List.cons_append] at hrun
  have hval : digitsToNat (d :: ds) = m := by
    rw [← hcons]
    exact digitsToNat_natDigits m
  have hnolead : ¬(d = '0' ∧ ds ≠ []) := by
    rintro ⟨hz, hne⟩
    have hm0 := natDigits_head_zero m d ds hcons hz
    subst hm0
    rw [natDigits_lt 0 (by omega)] at hcons
    injection hcons with h1 h2
    exact hne h2.symm
  simp only [parseNumCore, hcons, List.cons_append, hrun, if_neg hnolead, hval]

theorem parseNumber_intChars (n : Int) (rest : List Char)
    (hr : noDigitHead rest = true)
    (hlo : -(2 ^ 63) ≤ n) (hhi : n < 2 ^ 64) :
    parseNumber (intChars n ++ rest) = some (.int n, rest) := by
  have h63 : ((2 : Int) ^ 63) = 9223372036854775808 := by norm_num
  have h64 : ((2 : Int) ^ 64) = 18446744073709551616 := by norm_num
  rw [h63] at hlo
  rw [h64] at hhi
  by_cases hneg : n < 0
  · have harg : intChars n ++ rest = '-' :: (natDigits n.natAbs ++ rest) := by
      simp [intChars, hneg]
    rw [harg]
    simp only [parseNumber, if_pos rfl]
    rw [parseNumCore_reduce n.natAbs true rest hr,
      show (if true then
        (if n.natAbs ≤ 2 ^ 63 then some (PyVal.int (-(n.natAbs : Int)), rest)
         else Option.none)
       else
        (if n.natAbs < 2 ^ 64 then some (PyVal.int ((n.natAbs : Int)), rest)
         else Option.none))
       = (if n.natAbs ≤ 2 ^ 63 then some (PyVal.int (-(n.natAbs : Int)), rest)
          else Option.none) from rfl]
    have hm : n.natAbs ≤ 2 ^ 63 := by
      have : (2 : Nat) ^ 63 = 9223372036854775808 := by norm_num
      omega
    rw [if_pos hm]
    have hab : -((n.natAbs : Int)) = n := by omega
    rw [hab]
    simp
  · obtain ⟨d, ds, hcons⟩ : ∃ d ds, natDigits n.natAbs = d :: ds := by
      cases hh : natDigits n.natAbs with
      | nil => exact absurd hh (natDigits_ne_nil _)
      | cons a b => exact ⟨a, b, rfl⟩
    have hdig : d.isDigit = true := natDigits_digits n.natAbs d (by simp [hcons])
    have harg : intChars n ++ rest = d :: (ds ++ rest) := by
      simp [intChars, hneg, hcons]
    rw [harg]
    simp only [parseNumber, if_neg (digit_ne hdig).1]
    have heq : d :: (ds ++ rest) = natDigits n.natAbs ++ rest := by
      simp [hcons]
    rw [heq, parseNumCore_reduce n.natAbs false rest hr,
      show (if false then
        (if n.natAbs ≤ 2 ^ 63 then some (PyVal.int (-(n.natAbs : Int)), rest)
         else Option.none)
       else
        (if n.natAbs < 2 ^ 64 then some (PyVal.int ((n.natAbs : Int)), rest)
         else Option.none))
       = (if n.natAbs < 2 ^ 64 then some (PyVal.int ((n.natAbs : Int)), rest)
          else Option.none) from rfl]
    have hm : n.natAbs < 2 ^ 64 := by
      have : (2 : Nat) ^ 64 = 18446744073709551616 := by norm_num
      omega
    rw [if_pos hm]
    have hab : ((n.natAbs : Int)) = n := by omega
    rw [hab]

/-! ### String escaping and the string-body parser invert each other -/

theorem hexVal_hexChar (d : Nat) (h : d < 16) : hexVal (hexChar d) = some d := by
  interval_cases d <;> rfl

theorem parseStrBody_escChar (c : Char) (tail : List Char) :
    parseStrBody (escChar c ++ tail) =
      match parseStrBody tail with
      | some (s, r) => some (c :: s, r)
      | Option.none => Option.none := by
  by_cases h1 : c = '"'
  · subst h1
    rw [show escChar '"' = ['\\', '"'] from by decide,
      show (['\\', '"'] : List Char) ++ tail = '\\' :: '"' :: tail from rfl,
      parseStrBody.eq_def]
    simp [unescChar]
  by_cases h2 : c = '\\'
  · subst h2
    rw [show escChar '\\' = ['\\', '\\'] from by decide,
      show (['\\', '\\'] : List Char) ++ tail = '\\' :: '\\' :: tail from rfl,
      parseStrBody.eq_def]
    simp [unescChar]
  by_cases h3 : c = '\n'
  · subst h3
    rw [show escChar '\n' = ['\\', 'n'] from by decide,
      show (['\\', 'n'] : List Char) ++ tail = '\\' :: 'n' :: tail from rfl,
      parseStrBody.eq_def]
    simp [unescChar]
  by_cases h4 : c = '\t'
  · subst h4
    rw [show escChar '\t' = ['\\', 't'] from by decide,
      show (['\\', 't'] : List Char) ++ tail = '\\' :: 't' :: tail from rfl,
      parseStrBody.eq_def]
    simp [unescChar]
  by_cases h5 : c = '\r'
  · subst h5
    rw [show escChar '\r' = ['\\', 'r'] from by decide,
      show (['\\', 'r'] : List Char) ++ tail = '\\' :: 'r' :: tail from rfl,
      parseStrBody.eq_def]
    simp [unescChar]
  by_cases h6 : c.toNat = 8
  · have hc : c = Char.ofNat 8 := by
      rw [← h6, Char.ofNat_toNat]
    subst hc
    rw [show escChar (Char.ofNat 8) = ['\\', 'b'] from by decide,
      show (['\\', 'b'] : List Char) ++ tail = '\\' :: 'b' :: tail from rfl,
      parseStrBody.eq_def]
    simp [unescChar]
  by_cases h7 : c.toNat = 12
  · have hc : c = Char.ofNat 12 := by
      rw [← h7, Char.ofNat_toNat]
    subst hc
    rw [show escChar (Char.ofNat 12) = ['\\', 'f'] from by decide,
      show (['\\', 'f'] : List Char) ++ tail = '\\' :: 'f' :: tail from rfl,
      parseStrBody.eq_def]
    simp [unescChar]
  by_cases h8 : c.toNat < 32
  · have harg : escChar c ++ tail =
        '\\' :: 'u' :: '0' :: '0' ::
          hexChar (c.toNat / 16) :: hexChar (c.toNat % 16) :: tail := by
      simp [escChar, h1, h2, h3, h4, h5, h6, h7, h8]
    rw [harg, parseStrBody.eq_def]
    have hhi := hexVal_hexChar (c.toNat / 16) (by omega)
    have hlo := hexVal_hexChar (c.toNat % 16) (by omega)
    have hcode : c.toNat / 16 * 16 + c.toNat % 16 = c.toNat := by omega
    have hlt : c.toNat < 55296 := by omega
    simp [show hexVal '0' = some 0 from by decide, hhi, hlo, hcode, hlt,
      Char.ofNat_toNat]
  · have harg : escChar c ++ tail = c :: tail := by
      simp [escChar, h1, h2, h3, h4, h5, h6, h7, h8]
    rw [harg, parseStrBody.eq_def]
    simp [h1, h2]

theorem parseStrBody_escBody :
    ∀ l rest : List Char, parseStrBody (escBody l ++ '"' :: rest) = some (l, rest)
  | [], rest => by
    rw [show escBody [] ++ '"' :: rest = '"' :: rest from rfl, parseStrBody.eq_def]
    simp
  | c :: l, rest => by
    rw [escBody, List.append_assoc, parseStrBody_escChar,
      parseStrBody_escBody l rest]

/-! ### One-step unfoldings of the parser, and head characters of renderings -/

theorem parseVal_null (f : Nat) (rest : List Char) :
    parseVal (f + 1) ('n' :: 'u' :: 'l' :: 'l' :: rest) = some (.none, rest) := rfl

theorem parseVal_true (f : Nat) (rest : List Char) :
    parseVal (f + 1) ('t' :: 'r' :: 'u' :: 'e' :: rest) = some (.bool true, rest) := rfl

theorem parseVal_false (f : Nat) (rest : List Char) :
    parseVal (f + 1) ('f' :: 'a' :: 'l' :: 's' :: 'e' :: rest) =
      some (.bool false, rest) := rfl

theorem parseVal_quote (f : Nat) (rest : List Char) :
    parseVal (f + 1) ('"' :: rest) =
      match parseStrBody rest with
      | some (s, r) => some (.str (String.mk s), r)
      | Option.none => Option.none := rfl

theorem parseVal_openList (f : Nat) (c2 : Char) (r2 : List Char) :
    parseVal (f + 1) ('[' :: c2 :: r2) =
      (if c2 = ']' then some (.list [], r2)
       else
        match parseElems f (c2 :: r2) with
        | some (vs, r) => some (.list vs, r)
        | Option.none => Option.none) := rfl

theorem parseVal_openDict (f : Nat) (c2 : Char) (r2 : List Char) :
    parseVal (f + 1) ('\x7b' :: c2 :: r2) =
      (if c2 = '\x7d' then some (.dict [], r2)
       else
        match parsePairs f (c2 :: r2) with
        | some (ps, r) => some (.dict ps, r)
        | Option.none => Option.none) := rfl

theorem parseElems_step (f : Nat) (cs : List Char) :
    parseElems (f + 1) cs =
      match parseVal f cs with
      | some (v, r) =>
        match r with
        | ',' :: r2 =>
          match parseElems f r2 with
          | some (vs, r3) => some (v :: vs, r3)
          | Option.none => Option.none
        | ']' :: r2 => some ([v], r2)
        | _ => Option.none
      | Option.none => Option.none := rfl

theorem parsePairs_quote (f : Nat) (rest : List Char) :
    parsePairs (f + 1) ('"' :: rest) =
      match parseStrBody rest with
      | some (k, r1) =>
        match r1 with
        | ':' :: r2 =>
          match parseVal f r2 with
          | some (v, r3) =>
            match r3 with
            | ',' :: r4 =>
              match parsePairs f r4 with
              | some (ps, r5) => some ((String.mk k, v) :: ps, r5)
              | Option.none => Option.none
            | '\x7d' :: r4 => some ([(String.mk k, v)], r4)
            | _ => Option.none
          | Option.none => Option.none
        | _ => Option.none
      | Option.none => Option.none := rfl

theorem parseVal_number (f : Nat) (c : Char) (rest : List Char)
    (hn : ¬c = 'n') (ht : ¬c = 't') (hf : ¬c = 'f') (hq : ¬c = '"')
    (hbk : ¬c = '[') (hbc : ¬c = '\x7b') (hnum : c = '-' ∨ c.isDigit) :
    parseVal (f + 1) (c :: rest) = parseNumber (c :: rest) := by
  simp only [parseVal, if_neg hn, if_neg ht, if_neg hf, if_neg hq, if_neg hbk,
    if_neg hbc, if_pos hnum]

theorem intChars_ne_nil (n : Int) : intChars n ≠ [] := by
  rw [intChars]
  by_cases h : n < 0
  · simp [h]
  · simp [h, natDigits_ne_nil]

/-- Every successful rendering is nonempty, and its first character closes
neither an array nor an object. -/
theorem dumps_head (v : PyVal) (out : List Char) (h : orjsonDumps v = some out) :
    ∃ c t, out = c :: t ∧ ¬c = ']' ∧ ¬c = '\x7d' := by
  cases v with
  | none =>
    simp only [orjsonDumps, Option.some.injEq] at h
    exact ⟨'n', _, h.symm, by decide, by decide⟩
  | bool b =>
    cases b with
    | true =>
      simp only [orjsonDumps, Option.some.injEq] at h
      exact ⟨'t', _, h.symm, by decide, by decide⟩
    | false =>
      simp only [orjsonDumps, Option.some.injEq] at h
      exact ⟨'f', _, h.symm, by decide, by decide⟩
  | int n =>
    simp only [orjsonDumps] at h
    by_cases hrange : -(2 ^ 63 : Int) ≤ n ∧ n < 2 ^ 64
    swap
    · rw [if_neg hrange] at h
      exact absurd h (by simp)
    rw [if_pos hrange] at h
    simp only [Option.some.injEq] at h
    subst h
    rw [intChars]
    by_cases hneg : n < 0
    · rw [if_pos hneg]
      exact ⟨'-', natDigits n.natAbs, rfl, by decide, by decide⟩
    · rw [if_neg hneg]
      obtain ⟨d, ds, hcons⟩ : ∃ d ds, natDigits n.natAbs = d :: ds := by
        cases hh : natDigits n.natAbs with
        | nil => exact absurd hh (natDigits_ne_nil _)
        | cons a b => exact ⟨a, b, rfl⟩
      have hdig : d.isDigit = true := natDigits_digits n.natAbs d (by simp [hcons])
      have hne := digit_ne hdig
      exact ⟨d, ds, hcons, hne.2.2.2.2.2.2.2.1, hne.2.2.2.2.2.2.2.2.1⟩
  | str s =>
    simp only [orjsonDumps, Option.some.injEq] at h
    exact ⟨'"', _, h.symm, by decide, by decide⟩
  | list xs =>
    simp only [orjsonDumps] at h
    cases hde : dumpsElems xs with
    | none => rw [hde] at h; exact absurd h (by simp)
    | some body =>
      rw [hde] at h
      simp only [Option.some.injEq] at h
      exact ⟨'[', _, h.symm, by decide, by decide⟩
  | dict kvs =>
    simp only [orjsonDumps] at h
    cases hde : dumpsPairs kvs with
    | none => rw [hde] at h; exact absurd h (by simp)
    | some body =>
      rw [hde] at h
      simp only [Option.some.injEq] at h
      exact ⟨'\x7b', _, h.symm, by decide, by decide⟩
  | obj => exact absurd h (by simp [orjsonDumps])

/-- A nonempty element rendering starts like some value rendering. -/
theorem dumpsElems_head (x : PyVal) (xs : List PyVal) (body : List Char)
    (h : dumpsElems (x :: xs) = some body) :
    ∃ c t, body = c :: t ∧ ¬c = ']' ∧ ¬c = '\x7d' := by
  rw [dumpsElems] at h
  cases hdx : orjsonDumps x with
  | none => rw [hdx] at h; exact absurd h (by simp)
  | some dx =>
    rw [hdx] at h
    obtain ⟨c, t, hct, hne1, hne2⟩ := dumps_head x dx hdx
    cases xs with
    | nil =>
      simp only [Option.some.injEq] at h
      exact ⟨c, t, by rw [← h, hct], hne1, hne2⟩
    | cons y ys =>
      cases hys : dumpsElems (y :: ys) with
      | none => rw [hys] at h; exact absurd h (by simp)
      | some r =>
        rw [hys] at h
        simp only [Option.some.injEq] at h
        exact ⟨c, t ++ ',' :: r, by rw [← h, hct, List.cons_append], hne1, hne2⟩

/-- A nonempty member rendering starts with the key's opening quote. -/
theorem dumpsPairs_head (k : String) (v : PyVal) (kvs : List (String × PyVal))
    (body : List Char) (h : dumpsPairs ((k, v) :: kvs) = some body) :
    ∃ t, body = '"' :: t := by
  rw [dumpsPairs] at h
  cases hdv : orjsonDumps v with
  | none => rw [hdv] at h; exact absurd h (by simp)
  | some dv =>
    rw [hdv] at h
    cases kvs with
    | nil =>
      simp only [Option.some.injEq] at h
      exact ⟨(escBody k.data ++ ['"']) ++ ':' :: dv, by
        rw [← h, strLit]
        simp⟩
    | cons p ps =>
      cases hps : dumpsPairs (p :: ps) with
      | none => rw [hps] at h; exact absurd h (by simp)
      | some r =>
        rw [hps] at h
        simp only [Option.some.injEq] at h
        exact ⟨(escBody k.data ++ ['"']) ++ ':' :: dv ++ ',' :: r, by
          rw [← h, strLit]
          simp⟩

/-! ### The render/parse round trip, by mutual structural induction -/

mutual
theorem rtVal : ∀ (v : PyVal) (out rest : List Char) (fuel : Nat),
    orjsonDumps v = some out → out.length ≤ fuel → noDigitHead rest = true →
    parseVal fuel (out ++ rest) = some (v, rest)
  | .none, out, rest, fuel, hd, hf, _ => by
    simp only [orjsonDumps, Option.some.injEq] at hd
    subst hd
    cases fuel with
    | zero => simp at hf
    | succ f => exact parseVal_null f rest
  | .bool true, out, rest, fuel, hd, hf, _ => by
    simp only [orjsonDumps, Option.some.injEq] at hd
    subst hd
    cases fuel with
    | zero => simp at hf
    | succ f => exact parseVal_true f rest
  | .bool false, out, rest, fuel, hd, hf, _ => by
    simp only [orjsonDumps, Option.some.injEq] at hd
    subst hd
    cases fuel with
    | zero => simp at hf
    | succ f => exact parseVal_false f rest
  | .int n, out, rest, fuel, hd, hf, hr => by
    simp only [orjsonDumps] at hd
    by_cases hrange : -(2 ^ 63 : Int) ≤ n ∧ n < 2 ^ 64
    swap
    · rw [if_neg hrange] at hd
      exact absurd hd (by simp)
    rw [if_pos hrange] at hd
    simp only [Option.some.injEq] at hd
    subst hd
    cases fuel with
    | zero =>
      cases hic : intChars n with
      | nil => exact absurd hic (intChars_ne_nil n)
      | cons a b => rw [hic] at hf; simp at hf
    | succ f =>
      by_cases hneg : n < 0
      · have harg : intChars n ++ rest = '-' :: (natDigits n.natAbs ++ rest) := by
          simp [intChars, hneg]
        rw [harg, parseVal_number f '-' _ (by decide) (by decide) (by decide)
          (by decide) (by decide) (by decide) (Or.inl rfl), ← harg]
        exact parseNumber_intChars n rest hr hrange.1 hrange.2
      · obtain ⟨d, ds, hcons⟩ : ∃ d ds, natDigits n.natAbs = d :: ds := by
          cases hh : natDigits n.natAbs with
          | nil => exact absurd hh (natDigits_ne_nil _)
          | cons a b => exact ⟨a, b, rfl⟩
        have hdig : d.isDigit = true := natDigits_digits n.natAbs d (by simp [hcons])
        have hne := digit_ne hdig
        have harg : intChars n ++ rest = d :: (ds ++ rest) := by
          simp [intChars, hneg, hcons]
        rw [harg, parseVal_number f d _ hne.2.1 hne.2.2.1 hne.2.2.2.1
          hne.2.2.2.2.1 hne.2.2.2.2.2.1 hne.2.2.2.2.2.2.1 (Or.inr hdig), ← harg]
        exact parseNumber_intChars n rest hr hrange.1 hrange.2
  | .str s, out, rest, fuel, hd, hf, _ => by
    simp only [orjsonDumps, Option.some.injEq] at hd
    subst hd
    cases fuel with
    | zero => rw [strLit] at hf; simp at hf
    | succ f =>
      have harg : strLit s ++ rest = '"' :: (escBody s.data ++ '"' :: rest) := by
        rw [strLit]
        simp
      rw [harg, parseVal_quote, parseStrBody_escBody]
  | .list [], out, rest, fuel, hd, hf, _ => by
    simp only [orjsonDumps, dumpsElems, Option.some.injEq] at hd
    subst hd
    cases fuel with
    | zero => simp at hf
    | succ f =>
      rw [show ('[' :: ([] ++ [']'])) ++ rest = '[' :: ']' :: rest from rfl,
        parseVal_openList f ']' rest, if_pos rfl]
  | .list (x :: xs), out, rest, fuel, hd, hf, _ => by
    simp only [orjsonDumps] at hd
    cases hde : dumpsElems (x :: xs) with
    | none => rw [hde] at hd; exact absurd hd (by simp)
    | some body =>
      rw [hde] at hd
      simp only [Option.some.injEq] at hd
      subst hd
      cases fuel with
      | zero => simp at hf
      | succ f =>
        obtain ⟨c0, t0, hb, hne1, hne2⟩ := dumpsElems_head x xs body hde
        have harg : ('[' :: (body ++ [']'])) ++ rest
            = '[' :: c0 :: (t0 ++ ']' :: rest) := by
          rw [hb]
          simp
        have hlen : body.length < f := by
          simp only [List.length_cons, List.length_append, List.length_singleton]
            at hf
          omega
        have hbody : c0 :: (t0 ++ ']' :: rest) = body ++ ']' :: rest := by
          rw [hb]
          simp
        rw [harg, parseVal_openList f c0 _, if_neg hne1, hbody,
          rtElems x xs body rest f hde hlen]
  | .dict [], out, rest, fuel, hd, hf, _ => by
    simp only [orjsonDumps, dumpsPairs, Option.some.injEq] at hd
    subst hd
    cases fuel with
    | zero => simp at hf
    | succ f =>
      rw [show ('\x7b' :: ([] ++ ['\x7d'])) ++ rest = '\x7b' :: '\x7d' :: rest from rfl,
        parseVal_openDict f '\x7d' rest, if_pos rfl]
  | .dict ((k, v) :: kvs), out, rest, fuel, hd, hf, _ => by
    simp only [orjsonDumps] at hd
    cases hde : dumpsPairs ((k, v) :: kvs) with
    | none => rw [hde] at hd; exact absurd hd (by simp)
    | some body =>
      rw [hde] at hd
      simp only [Option.some.injEq] at hd
      subst hd
      cases fuel with
      | zero => simp at hf
      | succ f =>
        obtain ⟨t0, hb⟩ := dumpsPairs_head k v kvs body hde
        have harg : ('\x7b' :: (body ++ ['\x7d'])) ++ rest
            = '\x7b' :: '"' :: (t0 ++ '\x7d' :: rest) := by
          rw [hb]
          simp
        have hlen : body.length < f := by
          simp only [List.length_cons, List.length_append, List.length_singleton]
            at hf
          omega
        have hbody : '"' :: (t0 ++ '\x7d' :: rest) = body ++ '\x7d' :: rest := by
          rw [hb]
          simp
        rw [harg, parseVal_openDict f '"' _, if_neg (by decide), hbody,
          rtPairs k v kvs body rest f hde hlen]
  | .obj, out, rest, fuel, hd, hf, _ => by
    simp [orjsonDumps] at hd
termination_by v _ _ _ _ _ _ => sizeOf v

theorem rtElems : ∀ (x : PyVal) (xs : List PyVal) (body rest : List Char)
    (fuel : Nat), dumpsElems (x :: xs) = some body → body.length < fuel →
    parseElems fuel (body ++ ']' :: rest) = some (x :: xs, rest)
  | x, [], body, rest, fuel, hd, hf => by
    rw [dumpsElems] at hd
    cases hdx : orjsonDumps x with
    | none => rw [hdx] at hd; exact absurd hd (by simp)
    | some dx =>
      rw [hdx] at hd
      simp only [Option.some.injEq] at hd
      subst hd
      cases fuel with
      | zero => omega
      | succ f =>
        rw [parseElems_step, rtVal x dx (']' :: rest) f hdx (by omega) rfl]
        exact rfl
  | x, y :: ys, body, rest, fuel, hd, hf => by
    rw [dumpsElems] at hd
    cases hdx : orjsonDumps x with
    | none => rw [hdx] at hd; exact absurd hd (by simp)
    | some dx =>
      rw [hdx] at hd
      cases hys : dumpsElems (y :: ys) with
      | none => rw [hys] at hd; exact absurd hd (by simp)
      | some r2 =>
        rw [hys] at hd
        simp only [Option.some.injEq] at hd
        subst hd
        cases fuel with
        | zero => omega
        | succ f =>
          have hlen : dx.length + 1 + r2.length < f + 1 := by
            simp only [List.length_append, List.length_cons] at hf
            omega
          have harg : (dx ++ ',' :: r2) ++ ']' :: rest
              = dx ++ ',' :: (r2 ++ ']' :: rest) := by
            simp
          rw [parseElems_step, harg,
            rtVal x dx (',' :: (r2 ++ ']' :: rest)) f hdx (by omega) rfl]
          show (match parseElems f (r2 ++ ']' :: rest) with
                | some (vs, r3) => some (x :: vs, r3)
                | Option.none => Option.none) = some (x :: y :: ys, rest)
          rw [rtElems y ys r2 rest f hys (by omega)]
termination_by x xs _ _ _ _ _ => sizeOf x + sizeOf xs

theorem rtPairs : ∀ (k : String) (v : PyVal) (kvs : List (String × PyVal))
    (body rest : List Char) (fuel : Nat),
    dumpsPairs ((k, v) :: kvs) = some body → body.length < fuel →
    parsePairs fuel (body ++ '\x7d' :: rest) = some ((k, v) :: kvs, rest)
  | k, v, [], body, rest, fuel, hd, hf => by
    rw [dumpsPairs] at hd
    cases hdv : orjsonDumps v with
    | none => rw [hdv] at hd; exact absurd hd (by simp)
    | some dv =>
      rw [hdv] at hd
      simp only [Option.some.injEq] at hd
      subst hd
      cases fuel with
      | zero => omega
      | succ f =>
        have harg : (strLit k ++ ':' :: dv) ++ '\x7d' :: rest
            = '"' :: (escBody k.data ++ '"' :: (':' :: (dv ++ '\x7d' :: rest))) := by
          rw [strLit]
          simp
        have hlen : dv.length ≤ f := by
          simp only [strLit, List.length_append, List.length_cons] at hf
          omega
        rw [harg, parsePairs_quote, parseStrBody_escBody]
        show (match parseVal f (dv ++ '\x7d' :: rest) with
              | some (v2, r3) =>
                match r3 with
                | ',' :: r4 =>
                  match parsePairs f r4 with
                  | some (ps, r5) => some ((String.mk k.data, v2) :: ps, r5)
                  | Option.none => Option.none
                | '\x7d' :: r4 => some ([(String.mk k.data, v2)], r4)
                | _ => Option.none
              | Option.none => Option.none) = some ([(k, v)], rest)
        rw [rtVal v dv ('\x7d' :: rest) f hdv hlen rfl]
        exact rfl
  | k, v, (k2, v2) :: kvs, body, rest, fuel, hd, hf => by
    rw [dumpsPairs] at hd
    cases hdv : orjsonDumps v with
    | none => rw [hdv] at hd; exact absurd hd (by simp)
    | some dv =>
      rw [hdv] at hd
      cases hps : dumpsPairs ((k2, v2) :: kvs) with
      | none => rw [hps] at hd; exact absurd hd (by simp)
      | some r2 =>
        rw [hps] at hd
        simp only [Option.some.injEq] at hd
        subst hd
        cases fuel with
        | zero => omega
        | succ f =>
          have harg : (strLit k ++ ':' :: dv ++ ',' :: r2) ++ '\x7d' :: rest
              = '"' :: (escBody k.data
                  ++ '"' :: (':' :: (dv ++ ',' :: (r2 ++ '\x7d' :: rest)))) := by
            rw [strLit]
            simp
          have hlen : dv.length + r2.length + 1 < f + 1 := by
            simp only [strLit, List.length_append, List.length_cons] at hf
            omega
          rw [harg, parsePairs_quote, parseStrBody_escBody]
          show (match parseVal f (dv ++ ',' :: (r2 ++ '\x7d' :: rest)) with
                | some (v2, r3) =>
                  match r3 with
                  | ',' :: r4 =>
                    match parsePairs f r4 with
                    | some (ps, r5) => some ((String.mk k.data, v2) :: ps, r5)
                    | Option.none => Option.none
                  | '\x7d' :: r4 => some ([(String.mk k.data, v2)], r4)
                  | _ => Option.none
                | Option.none => Option.none) = some ((k, v) :: (k2, v2) :: kvs, rest)
          rw [rtVal v dv (',' :: (r2 ++ '\x7d' :: rest)) f hdv (by omega) rfl]
          show (match parsePairs f (r2 ++ '\x7d' :: rest) with
                | some (ps, r5) => some ((String.mk k.data, v) :: ps, r5)
                | Option.none => Option.none) = some ((k, v) :: (k2, v2) :: kvs, rest)
          rw [rtPairs k2 v2 kvs r2 rest f hps (by omega)]
termination_by _ v kvs _ _ _ _ _ => sizeOf v + sizeOf kvs
end

/-- `orjson.loads` inverts `orjson.dumps` on every serializable value. -/
theorem orjsonLoads_dumps (v : PyVal) (out : List Char)
    (h : orjsonDumps v = some out) : orjsonLoads (String.mk out) = some v := by
  have hp := rtVal v out [] (out.length + 1) h (by omega) rfl
  rw [List.append_nil] at hp
  simp [orjsonLoads, hp]

/-! ### Codec composition facts -/

/-- Parsing a rendered value back recovers it (string form). -/
theorem deserializeStr_mk (v : PyVal) (out : List Char)
    (h : orjsonDumps v = some out) : deserializeStr (String.mk out) = v := by
  rw [deserializeStr, orjsonLoads_dumps v out h]

/-- A rendering is never the empty string. -/
theorem dumps_mk_ne_empty (v : PyVal) (out : List Char)
    (h : orjsonDumps v = some out) : String.mk out ≠ "" := by
  obtain ⟨c, t, hct, -, -⟩ := dumps_head v out h
  subst hct
  intro he
  have hdata : (c :: t : List Char) = [] := congrArg String.data he
  simp at hdata

theorem deserialize_pystr_mk (v : PyVal) (out : List Char)
    (h : orjsonDumps v = some out) : deserialize (.pystr (String.mk out)) = v := by
  rw [deserialize, if_neg (dumps_mk_ne_empty v out h), deserializeStr_mk v out h]

/-! ### Retry loop attempt bound -/

theorem retryAux_count {α : Type} : ∀ (t i : Nat) (o : Nat → Except PyExc α),
    (retryAux o i t).2 ≤ t
  | 0, i, o => by simp [retryAux]
  | 1, i, o => by simp [retryAux]
  | t + 2, i, o => by
    simp only [retryAux]
    cases o i with
    | ok a => simp
    | error e =>
      show (if isRetryableExc e = true
        then ((retryAux o (i + 1) (t + 1)).1, (retryAux o (i + 1) (t + 1)).2 + 1)
        else (Except.error e, 1)).2 ≤ t + 2
      by_cases hr : isRetryableExc e = true
      · rw [if_pos hr]
        have hc := retryAux_count (t + 1) (i + 1) o
        have hp : ((retryAux o (i + 1) (t + 1)).1,
            (retryAux o (i + 1) (t + 1)).2 + 1).2
            = (retryAux o (i + 1) (t + 1)).2 + 1 := rfl
        rw [hp]
        omega
      · rw [if_neg hr]
        simp

/-! ### Syntactically doomed inputs fail in the model as in the library -/

theorem jsonStarter_split {c : Char} (h : jsonStarter c = false) :
    c ≠ 'n' ∧ c ≠ 't' ∧ c ≠ 'f' ∧ c ≠ '"' ∧ c ≠ '[' ∧ c ≠ '\x7b' ∧
      c ≠ '-' ∧ c.isDigit = false := by
  simp only [jsonStarter, Bool.or_eq_false_iff, beq_eq_false_iff_ne] at h
  obtain ⟨⟨⟨⟨⟨⟨⟨h1, h2⟩, h3⟩, h4⟩, h5⟩, h6⟩, h7⟩, h8⟩ := h
  exact ⟨h1, h2, h3, h4, h5, h6, h7, h8⟩

theorem jsonWs_not_starter {c : Char} (h : jsonWs c = true) :
    jsonStarter c = false := by
  simp only [jsonWs, Bool.or_eq_true, beq_iff_eq] at h
  rcases h with ((h | h) | h) | h <;> subst h <;> decide

theorem parseVal_no_starter (fuel : Nat) (c : Char) (rest : List Char)
    (h : jsonStarter c = false) : parseVal fuel (c :: rest) = Option.none := by
  obtain ⟨h1, h2, h3, h4, h5, h6, h7, h8⟩ := jsonStarter_split h
  cases fuel with
  | zero => rfl
  | succ f =>
    simp only [parseVal, if_neg h1, if_neg h2, if_neg h3, if_neg h4, if_neg h5,
      if_neg h6]
    rw [if_neg]
    rintro (hc | hd)
    · exact h7 hc
    · rw [h8] at hd
      exact absurd hd (by simp)

theorem orjsonLoads_stuck (s : String) (h : jsonHeadStuck s = true) :
    orjsonLoads s = Option.none := by
  rw [orjsonLoads]
  cases hcs : s.data with
  | nil => rfl
  | cons c rest =>
    rw [jsonHeadStuck, hcs] at h
    by_cases hw : jsonWs c = true
    · rw [parseVal_no_starter _ c rest (jsonWs_not_starter hw)]
    · rw [show skipJsonWs (c :: rest) = c :: rest from by
        rw [skipJsonWs, if_neg (by simp [hw])]] at h
      rw [headNoStarter, Bool.not_eq_eq_eq_not, Bool.not_true] at h
      rw [parseVal_no_starter _ c rest h]

/-! ### Claim theorems -/

/-- Claim C1, counterexample: the round-trip law fails on a primitive.
`_serialize(True)` is Python `str(True) = "True"`, which `orjson.loads`
rejects, so `_deserialize` returns the *string* `"True"`, not the boolean. -/
theorem C1_counterexample :
    serialize (PyVal.bool true) = .ok "True" ∧
    deserialize (.pystr "True") = PyVal.str "True" ∧
    PyVal.str "True" ≠ PyVal.bool true := by
  refine ⟨rfl, ?_, by decide⟩
  decide

/-- Claim C1 (amended): `decode(encode(v)) = v` holds for `None`; for every
integer within orjson's 64-bit load range `[-2^63, 2^64 - 1]`; for every
string that, after leading whitespace, cannot begin a JSON document (then
`orjson.loads` raises whatever follows, and the raw string is returned);
and for every JSON-serializable list and dict (structural equality).
Booleans are excluded (see the counterexample), floats are outside the
embedding, and an integer beyond the 64-bit load range decodes back to its
digit string (final conjunct), since `orjson.loads` raises on it. -/
theorem C1_round_trip_amended :
    (∀ w, serialize PyVal.none = .ok w → deserialize (.pystr w) = PyVal.none) ∧
    (∀ (n : Int) (w : String), serialize (PyVal.int n) = .ok w →
      -(2 ^ 63) ≤ n → n < 2 ^ 64 → deserialize (.pystr w) = PyVal.int n) ∧
    (∀ (s w : String), serialize (PyVal.str s) = .ok w → s ≠ "" →
      jsonHeadStuck s = true → deserialize (.pystr w) = PyVal.str s) ∧
    (∀ (xs : List PyVal) (w : String), serialize (PyVal.list xs) = .ok w →
      deserialize (.pystr w) = PyVal.list xs) ∧
    (∀ (kvs : List (String × PyVal)) (w : String),
      serialize (PyVal.dict kvs) = .ok w →
      deserialize (.pystr w) = PyVal.dict kvs) ∧
    (serialize (PyVal.int (2 ^ 64)) = .ok "18446744073709551616" ∧
      deserialize (.pystr "18446744073709551616")
        = PyVal.str "18446744073709551616") := by
  refine ⟨?_, ?_, ?_, ?_, ?_, ?_, ?_⟩
  · intro w h
    rw [show serialize PyVal.none = .ok "" from rfl] at h
    injection h with h
    subst h
    rfl
  · intro n w h hlo hhi
    rw [show serialize (PyVal.int n) = .ok (String.mk (intChars n)) from rfl] at h
    injection h with h
    subst h
    refine deserialize_pystr_mk (PyVal.int n) (intChars n) ?_
    simp only [orjsonDumps]
    rw [if_pos ⟨hlo, hhi⟩]
  · intro s w h hne hstuck
    rw [show serialize (PyVal.str s) = .ok s from rfl] at h
    injection h with h
    subst h
    rw [deserialize, if_neg hne, deserializeStr, orjsonLoads_stuck s hstuck]
  · intro xs w h
    rw [show serialize (PyVal.list xs)
        = (match orjsonDumps (PyVal.list xs) with
           | some cs => .ok (String.mk cs)
           | Option.none => .error ()) from rfl] at h
    cases hdv : orjsonDumps (PyVal.list xs) with
    | none => rw [hdv] at h; exact absurd h (by simp)
    | some cs =>
      rw [hdv] at h
      injection h with h
      subst h
      exact deserialize_pystr_mk (PyVal.list xs) cs hdv
  · intro kvs w h
    rw [show serialize (PyVal.dict kvs)
        = (match orjsonDumps (PyVal.dict kvs) with
           | some cs => .ok (String.mk cs)
           | Option.none => .error ()) from rfl] at h
    cases hdv : orjsonDumps (PyVal.dict kvs) with
    | none => rw [hdv] at h; exact absurd h (by simp)
    | some cs =>
      rw [hdv] at h
      injection h with h
      subst h
      exact deserialize_pystr_mk (PyVal.dict kvs) cs hdv
  · rfl
  · decide

/-- Witness for the amended claim C1, at concrete inputs of each clause with
a hypothesis. -/
theorem C1_round_trip_amended_witness :
    deserialize (.pystr "-7") = PyVal.int (-7) ∧
    deserialize (.pystr "redis") = PyVal.str "redis" ∧
    deserialize (.pystr "[1,\"a\",null]")
      = PyVal.list [PyVal.int 1, PyVal.str "a", PyVal.none] :=
  ⟨C1_round_trip_amended.2.1 (-7) "-7" rfl (by norm_num) (by norm_num),
   C1_round_trip_amended.2.2.1 "redis" "redis" rfl (by decide) (by decide),
   C1_round_trip_amended.2.2.2.1 [PyVal.int 1, PyVal.str "a", PyVal.none]
     "[1,\"a\",null]" rfl⟩

/-- Claim C2, counterexample: `async_set` with `expire = -1` does not fail.
With a driver that accepts the write, it returns success (`True`) and issues
the write with no TTL at all (`ex = None`). -/
theorem C2_counterexample :
    async_set "k" (PyVal.str "v") (some (-1)) false false false
        (fun _ => .ok true)
      = (.ok true, some ⟨"k", "v", Option.none, false, false, false⟩) := rfl

/-- Claim C2 (amended): a TTL ≤ 0 is detected as invalid but, instead of
failing, it is dropped: a warning is logged, the driver call is made with
`ex = None`, and the driver's success result is returned. -/
theorem C2_amended (k : String) (v : PyVal) (sv : String) (e : Int)
    (nx xx kt : Bool) (d : SetCall → Except PyExc Bool) (b : Bool)
    (hser : serialize v = .ok sv) (he : e ≤ 0)
    (hd : d ⟨k, sv, Option.none, nx, xx, kt⟩ = .ok b) :
    async_set k v (some e) nx xx kt d
      = (.ok b, some ⟨k, sv, Option.none, nx, xx, kt⟩) := by
  simp only [async_set, hser, if_pos he, hd]

/-- Witness for the amended claim C2 at a concrete dropped TTL. -/
theorem C2_amended_witness :
    async_set "k" (PyVal.str "x") (some (-5)) false false false
        (fun _ => .ok true)
      = (.ok true, some ⟨"k", "x", Option.none, false, false, false⟩) :=
  C2_amended "k" (PyVal.str "x") "x" (-5) false false false
    (fun _ => .ok true) true rfl (by decide) rfl

/-- Claim C3, counterexample: a command-level rejection (a `ResponseError`,
subclass of `RedisError`) *is* retried by the decorator: the first attempt
raises it, the second attempt's result is returned, and two calls are made
instead of the claimed immediate single-call error return. -/
theorem C3_counterexample :
    retryRun 3 (fun i => if i == 0
        then Except.error (PyExc.respErr RespKind.wrongType)
        else Except.ok (42 : Nat))
      = (Except.ok 42, 2) ∧
    retryRun 3 (fun i => if i == 0
        then Except.error (PyExc.respErr RespKind.wrongType)
        else Except.ok (42 : Nat))
      ≠ (Except.error (PyExc.respErr RespKind.wrongType), 1) := by
  constructor
  · rfl
  · intro h
    rw [show retryRun 3 (fun i => if i == 0
        then Except.error (PyExc.respErr RespKind.wrongType)
        else Except.ok (42 : Nat)) = (Except.ok 42, 2) from rfl] at h
    simp at h

/-- Claim C3 (amended): the decorator's retry filter is the exception tuple
`(aredis.RedisError, ConnectionError)`.  Command-level `ResponseError`s are
`RedisError` subclasses and are therefore retried like transient errors;
only exceptions outside the tuple (e.g. the plain `Exception` re-raised by
`async_set`) skip retry and surface immediately, after exactly one call. -/
theorem C3_amended :
    (∀ (N : Nat) (o : Nat → Except PyExc Nat) (e : PyExc), 1 ≤ N →
      o 0 = .error e → isRetryableExc e = false → retryRun N o = (.error e, 1)) ∧
    (∀ k, isRetryableExc (PyExc.respErr k) = true) ∧
    isRetryableExc PyExc.connErr = true ∧
    isRetryableExc PyExc.redisErr = true ∧
    isRetryableExc PyExc.appExc = false ∧
    (∀ (N : Nat) (o : Nat → Except PyExc Nat) (k : RespKind) (a : Nat), 2 ≤ N →
      o 0 = .error (PyExc.respErr k) → o 1 = .ok a →
      retryRun N o = (.ok a, 2)) := by
  refine ⟨?_, fun k => rfl, rfl, rfl, rfl, ?_⟩
  · intro N o e hN h0 hr
    match N, hN with
    | 1, _ =>
      rw [retryRun, retryAux, h0]
    | (t + 2), _ =>
      rw [retryRun, retryAux, h0]
      show (if isRetryableExc e = true
        then ((retryAux o 1 (t + 1)).1, (retryAux o 1 (t + 1)).2 + 1)
        else (Except.error e, 1)) = (.error e, 1)
      rw [if_neg (by simp [hr])]
  · intro N o k a hN h0 h1
    match N, hN with
    | (t + 2), _ =>
      rw [retryRun, retryAux, h0]
      show (if isRetryableExc (PyExc.respErr k) = true
        then ((retryAux o 1 (t + 1)).1, (retryAux o 1 (t + 1)).2 + 1)
        else (Except.error (PyExc.respErr k), 1)) = (.ok a, 2)
      rw [if_pos (show isRetryableExc (PyExc.respErr k) = true from rfl)]
      cases t with
      | zero => rw [retryAux, h1]
      | succ t2 =>
        rw [retryAux, h1]

/-- Witness for the amended claim C3: a plain exception surfaces after one
call; a command rejection is retried and the second result returned. -/
theorem C3_amended_witness :
    retryRun 3 (fun _ => (Except.error PyExc.appExc : Except PyExc Nat))
      = (Except.error PyExc.appExc, 1) ∧
    retryRun 3 (fun i => if i == 0
        then Except.error (PyExc.respErr RespKind.wrongType)
        else Except.ok (7 : Nat))
      = (Except.ok 7, 2) :=
  ⟨C3_amended.1 3 (fun _ => (Except.error PyExc.appExc : Except PyExc Nat))
      PyExc.appExc (by omega) rfl rfl,
   C3_amended.2.2.2.2.2 3 (fun i => if i == 0
        then Except.error (PyExc.respErr RespKind.wrongType)
        else Except.ok (7 : Nat)) RespKind.wrongType 7 (by omega) rfl rfl⟩

/-- Claim C4, counterexample: a serialization failure in `async_set` does not
propagate; the catch-all handler converts it to the safe default `False`,
and no driver call is made. -/
theorem C4_counterexample :
    serialize PyVal.obj = .error () ∧
    async_set "k" PyVal.obj Option.none false false false (fun _ => .ok true)
      = (.ok false, Option.none) :=
  ⟨rfl, rfl⟩

/-- Claim C4 (amended): read-style operations return their safe default on
any underlying failure (`async_get` gives `None`, `async_llen` gives `0`),
and the integer operations re-raise the failure — but a serialization
failure in `async_set` is also converted to a safe default (`False`),
not propagated. -/
theorem C4_error_policy_amended :
    (∀ e, async_get (.error e) = .ok PyVal.none) ∧
    (∀ e, async_llen (.error e) = .ok 0) ∧
    (∀ e, async_incr (.error e) = .error e) ∧
    (∀ e, async_decr (.error e) = .error e) ∧
    (∀ e, async_incrby (.error e) = .error e) ∧
    (∀ e, async_decrby (.error e) = .error e) ∧
    (∀ e, async_hincrby (.error e) = .error e) ∧
    (∀ (k : String) (v : PyVal) (exp : Option Int) (nx xx kt : Bool)
      (d : SetCall → Except PyExc Bool), serialize v = .error () →
      async_set k v exp nx xx kt d = (.ok false, Option.none)) := by
  refine ⟨fun e => rfl, fun e => rfl, fun e => rfl, fun e => rfl, fun e => rfl,
    fun e => rfl, fun e => rfl, ?_⟩
  intro k v exp nx xx kt d hser
  simp only [async_set, hser]

/-- Witness for the amended claim C4, discharging the serialization-failure
clause at a concrete non-serializable value. -/
theorem C4_error_policy_amended_witness :
    async_set "q" PyVal.obj (some 10) true false false (fun _ => .ok true)
      = (.ok false, Option.none) :=
  C4_error_policy_amended.2.2.2.2.2.2.2 "q" PyVal.obj (some 10) true false false
    (fun _ => .ok true) rfl

/-- Claim C5: cluster mode is selected iff the cluster flag is set and the
node list is present and non-empty; in every other case, including a true
flag with an empty or absent node list, single-node mode is selected. -/
theorem C5_cluster_selection :
    (∀ s : RedisSettings, selectMode s = RedisMode.cluster ↔
      (s.is_cluster = true ∧ ∃ l, s.cluster_nodes = some l ∧ l ≠ [])) ∧
    (∀ s : RedisSettings, selectMode s ≠ RedisMode.cluster →
      selectMode s = RedisMode.standalone) ∧
    (∀ s : RedisSettings, s.cluster_nodes = some [] →
      selectMode s = RedisMode.standalone) ∧
    (∀ s : RedisSettings, s.cluster_nodes = Option.none →
      selectMode s = RedisMode.standalone) := by
  have hmain : ∀ s : RedisSettings, selectMode s = RedisMode.cluster ↔
      (s.is_cluster = true ∧ ∃ l, s.cluster_nodes = some l ∧ l ≠ []) := by
    intro s
    rw [selectMode]
    constructor
    · intro h
      by_cases hc : s.is_cluster = true ∧ pyTruthy s.cluster_nodes = true
      · refine ⟨hc.1, ?_⟩
        have ht := hc.2
        cases hn : s.cluster_nodes with
        | none => rw [hn] at ht; exact absurd ht (by simp [pyTruthy])
        | some l =>
          rw [hn] at ht
          refine ⟨l, rfl, ?_⟩
          intro hl
          subst hl
          exact absurd ht (by simp [pyTruthy])
      · rw [if_neg hc] at h
        exact absurd h (by simp)
    · rintro ⟨hflag, l, hn, hl⟩
      rw [if_pos ⟨hflag, by simp [hn, pyTruthy, List.isEmpty_eq_true, hl]⟩]
  refine ⟨hmain, ?_, ?_, ?_⟩
  · intro s h
    rw [selectMode] at h ⊢
    by_cases hc : s.is_cluster = true ∧ pyTruthy s.cluster_nodes = true
    · rw [if_pos hc] at h
      exact absurd rfl h
    · rw [if_neg hc]
  · intro s hn
    rw [selectMode, if_neg]
    rintro ⟨-, ht⟩
    rw [hn] at ht
    exact absurd ht (by simp [pyTruthy])
  · intro s hn
    rw [selectMode, if_neg]
    rintro ⟨-, ht⟩
    rw [hn] at ht
    exact absurd ht (by simp [pyTruthy])

/-- Claim C6, counterexample: `async_pipeline` and `async_close` carry no
retry decoration in the source; the facade table records them as the two
unwrapped operations. -/
theorem C6_counterexample :
    facadeOps.lookup "async_pipeline" = some false ∧
    facadeOps.lookup "async_close" = some false ∧
    ("async_pipeline", false) ∈ facadeOps := by
  refine ⟨?_, ?_, ?_⟩ <;> decide

/-- Claim C6 (amended): every exposed `async_*` operation *except* the
pipeline constructor and close is wrapped by the retry decorator. -/
theorem C6_retry_wrapping_amended : ∀ p ∈ facadeOps,
    p.1 ≠ "async_pipeline" → p.1 ≠ "async_close" → p.2 = true := by
  decide

/-- Witness for the amended claim C6 at a concrete wrapped operation. -/
theorem C6_retry_wrapping_amended_witness :
    (("async_ping", true) : String × Bool).2 = true :=
  C6_retry_wrapping_amended ("async_ping", true) (by decide) (by decide)
    (by decide)

/-- Claim C7: the computed delay before the `k`-th retry (0-based, as
`backoff.expo` counts) is `base^k * factor` with `base = 2` and `factor`
the configured `retry_delay`; full jitter maps a uniform sample
`u ∈ [0, 1]` to `u * delay`, which ranges over exactly `[0, delay]`; and
the retry loop never makes more calls than the configured
`retry_attempts`. -/
theorem C7_backoff_policy :
    (∀ (factor : Rat) (k : Nat), expoDelay factor k = 2 ^ k * factor) ∧
    (∀ k, expoDelay defaultRedisSettings.retry_delay k = 2 ^ k * (1 / 10)) ∧
    (∀ (d u : Rat), 0 ≤ u → u ≤ 1 → 0 ≤ d →
      0 ≤ fullJitter d u ∧ fullJitter d u ≤ d) ∧
    (∀ (N : Nat) (o : Nat → Except PyExc Nat), (retryRun N o).2 ≤ N) ∧
    (∀ o : Nat → Except PyExc Nat,
      (retryRun defaultRedisSettings.retry_attempts o).2 ≤ 3) := by
  refine ⟨?_, ?_, ?_, ?_, ?_⟩
  · intro factor k
    rw [expoDelay, mul_comm]
  · intro k
    rw [expoDelay, mul_comm]
    rfl
  · intro d u hu0 hu1 hd0
    constructor
    · exact mul_nonneg hu0 hd0
    · exact mul_le_of_le_one_left hd0 hu1
  · intro N o
    exact retryAux_count N 0 o
  · intro o
    exact retryAux_count 3 0 o

/-- Witness for claim C7's jitter clause at a concrete sample. -/
theorem C7_backoff_policy_witness :
    0 ≤ fullJitter 2 (1 / 2) ∧ fullJitter 2 (1 / 2) ≤ 2 :=
  C7_backoff_policy.2.2.1 2 (1 / 2) (by norm_num) (by norm_num) (by norm_num)

/-- Claim C8: decoding is asymmetric on empty input — `None` and the empty
text string decode to `None`, but an empty `bytes` decodes to the empty
text string, because the emptiness check `value == ""` is false for any
`bytes` value and runs before byte decoding. -/
theorem C8_empty_input_asymmetry :
    deserialize Wire.pynone = PyVal.none ∧
    deserialize (Wire.pystr "") = PyVal.none ∧
    deserialize (Wire.pybytes "") = PyVal.str "" ∧
    deserialize (Wire.pybytes "") ≠ PyVal.none := by
  refine ⟨rfl, by decide, by decide, by decide⟩

/-- Claim C9: a failure inside `async_hscan` yields `(0, empty dict)`, the
very value a successful, completed scan of an empty hash yields — the two
outcomes are indistinguishable to the caller. -/
theorem C9_hscan_failure_indistinguishable :
    (∀ e, async_hscan (.error e) = (0, [])) ∧
    async_hscan (.ok (0, [])) = (0, []) ∧
    (∀ e, async_hscan (.error e) = async_hscan (.ok (0, []))) :=
  ⟨fun _ => rfl, rfl, fun _ => rfl⟩

/-- Claim C10: `async_blpop` and `async_brpop` return the driver's
`[list name, element]` pair without any decoding, so a value written
through the facade's encoder comes back in wire form; `async_brpoplpush`
does apply `_deserialize` to its result. -/
theorem C10_blocking_pop_codec :
    (∀ r, async_blpop (.ok r) = r) ∧
    (∀ r, async_brpop (.ok r) = r) ∧
    (∀ w, async_brpoplpush (.ok (some w)) = deserialize (.pystr w)) ∧
    (∀ (q : String) (v : PyVal) (sv : String), serialize v = .ok sv →
      async_blpop (.ok (some (q, sv))) = some (q, sv)) ∧
    async_blpop (.ok (some ("q", "5"))) = some ("q", "5") ∧
    async_brpoplpush (.ok (some "5")) = PyVal.int 5 := by
  refine ⟨fun r => rfl, fun r => rfl, fun w => rfl, ?_, rfl, by decide⟩
  intro q v sv hser
  rfl

/-- Witness for claim C10's wire-form clause: the element written as the
integer `7` is returned by `blpop` as the wire string `"7"`. -/
theorem C10_blocking_pop_codec_witness :
    async_blpop (.ok (some ("L", "7"))) = some ("L", "7") :=
  C10_blocking_pop_codec.2.2.2.1 "L" (PyVal.int 7) "7" rfl

end RedisSpec
